import Mathlib

/-!
Shallow embedding of the Fuelink core (Queue, NodeManager.getBest, Node
reconnection, Connection voice handshake, Player playback control) together
with proofs checking the natural-language specification against it.

Sources embedded:
- `src/src/adapters/VoiceAdapter.js` (the `Queue` class in the second file
  of that bundle): `next`, `jump`, `back`, `remove`, `move`, `swap`,
  `_addToHistory`, `getAutoplayTracks`.
- `src/src/managers/NodeManager.js`: `getConnected`, `getBest`.
- `src/unnamed/part_004` (`Node`): `_onClose`, `_scheduleReconnect`.
- `src/unnamed/part_003` (`Connection`): `handleVoiceStateUpdate`,
  `handleVoiceServerUpdate`, `_checkReady`, `disconnect`.
- `src/unnamed/part_005` (`Player`): `play` (queue-exhausted path),
  `_handleQueueEnd`, `pause`, `resume`, `estimatedPosition`, `migrateNode`.

Tracks carry no behaviour relevant to the claims, so the queue is
parametrised over an arbitrary track type `T`.  JavaScript numbers used as
indices are embedded as `Int` (the guards against negative indices are in
the source); penalties and backoff delays are embedded as `ℚ`.
-/

namespace Fuelink

/-- `LoopMode` from `src/src/utils/Constants.js`: `off`, `track`, `queue`. -/
inductive LoopMode
  | off
  | track
  | queue
deriving DecidableEq, Repr

/-- `PlayerState` from `src/src/utils/Constants.js`. -/
inductive PlayerState
  | connecting
  | connected
  | playing
  | paused
  | stopped
  | disconnected
  | destroyed
deriving DecidableEq, Repr

/-- `NodeState` from `src/src/utils/Constants.js`. -/
inductive NodeState
  | connecting
  | connected
  | reconnecting
  | disconnected
  | destroyed
deriving DecidableEq, Repr

/-- The mutable state of the `Queue` class (constructor of `Queue` in
`src/src/adapters/VoiceAdapter.js`).  The `autoplayProvider` function field
is kept outside the structure (it is passed explicitly to
`getAutoplayTracks`) so that queue states stay decidably comparable. -/
structure Queue (T : Type) where
  tracks : List T
  priorityTracks : List T
  current : Option T
  previous : Option T
  loop : LoopMode
  autoplay : Bool
  history : List T
  maxHistorySize : Nat
deriving DecidableEq

namespace Queue

variable {T : Type}

/-- `get size()`: `tracks.length + priorityTracks.length`. -/
def size (q : Queue T) : Nat :=
  q.tracks.length + q.priorityTracks.length

/-- `_addToHistory(track)`: push, then shift the oldest entry off when the
history exceeds `maxHistorySize`. -/
def addToHistory (q : Queue T) (t : T) : Queue T :=
  let h := q.history ++ [t]
  { q with history := if q.maxHistorySize < h.length then h.drop 1 else h }

/-- `next()`: save `current` to history and `previous`; under track-loop
return `current` unchanged; otherwise dequeue the priority lane first, then
the main lane (re-appending `previous` under queue-loop), falling back to
replaying `previous` under queue-loop when both lanes are empty. -/
def next (q : Queue T) : Option T × Queue T :=
  let q1 :=
    match q.current with
    | some c => { q.addToHistory c with previous := some c }
    | none => q
  if q1.loop = LoopMode.track ∧ q1.current.isSome then
    (q1.current, q1)
  else
    match q1.priorityTracks with
    | t :: rest => (some t, { q1 with current := some t, priorityTracks := rest })
    | [] =>
      match q1.tracks with
      | t :: rest =>
        let q2 := { q1 with current := some t, tracks := rest }
        if q1.loop = LoopMode.queue then
          match q1.previous with
          | some p => (some t, { q2 with tracks := q2.tracks ++ [p] })
          | none => (some t, q2)
        else (some t, q2)
      | [] =>
        if q1.loop = LoopMode.queue then
          match q1.previous with
          | some p => (some p, { q1 with current := some p })
          | none => (none, { q1 with current := none })
        else (none, { q1 with current := none })

/-- `next()` iterated: the list of returned tracks and the final state. -/
def nextIter (q : Queue T) : Nat → List (Option T) × Queue T
  | 0 => ([], q)
  | n + 1 =>
    let r := q.next
    let rest := r.2.nextIter n
    (r.1 :: rest.1, rest.2)

/-- `jump(position)`: guard the range, push `current` and each skipped track
to history, shift off the target track, and re-split the remaining combined
view into priority/main using the (stale) priority-lane length. -/
def jump (q : Queue T) (position : Int) : Option T × Queue T :=
  if position < 0 ∨ (q.size : Int) ≤ position then (none, q)
  else
    let p := position.toNat
    let q1 :=
      match q.current with
      | some c => q.addToHistory c
      | none => q
    let combined := q1.priorityTracks ++ q1.tracks
    let skipped := combined.take p
    let q2 := skipped.foldl addToHistory q1
    let rest := combined.drop p
    let cur := rest.head?
    let rest2 := rest.tail
    let priorityCount := (max 0 ((q1.priorityTracks.length : Int) - position - 1)).toNat
    (cur, { q2 with current := cur,
                    priorityTracks := rest2.take priorityCount,
                    tracks := rest2.drop priorityCount })

/-- `back()`: pop the history stack; re-insert `current` at the front of the
priority lane and make the popped track current. -/
def back (q : Queue T) : Option T × Queue T :=
  match q.history.getLast? with
  | none => (none, q)
  | some prev =>
    let h := q.history.dropLast
    let prio :=
      match q.current with
      | some c => c :: q.priorityTracks
      | none => q.priorityTracks
    (some prev, { q with history := h, priorityTracks := prio,
                         current := some prev, previous := h.getLast? })

/-- `remove(index)`: remove from the priority lane when the index falls in
it, else from the main lane after shifting the index, else return null. -/
def remove (q : Queue T) (index : Int) : Option T × Queue T :=
  if index < 0 then (none, q)
  else
    let i := index.toNat
    if i < q.priorityTracks.length then
      (q.priorityTracks.get? i, { q with priorityTracks := q.priorityTracks.eraseIdx i })
    else
      let mainIndex := i - q.priorityTracks.length
      if mainIndex < q.tracks.length then
        (q.tracks.get? mainIndex, { q with tracks := q.tracks.eraseIdx mainIndex })
      else (none, q)

/-- `move(from, to)`: guard both indices against the combined range, splice
the track out and back in on the combined view, and re-split. -/
def move (q : Queue T) (fro tgt : Int) : Bool × Queue T :=
  if fro < 0 ∨ (q.size : Int) ≤ fro ∨ tgt < 0 ∨ (q.size : Int) ≤ tgt then (false, q)
  else
    let combined := q.priorityTracks ++ q.tracks
    match combined.get? fro.toNat with
    | some track =>
      let c1 := combined.eraseIdx fro.toNat
      let c2 := c1.take tgt.toNat ++ track :: c1.drop tgt.toNat
      (true, { q with priorityTracks := c2.take q.priorityTracks.length,
                      tracks := c2.drop q.priorityTracks.length })
    | none => (false, q)

/-- `swap(index1, index2)`: guard both indices, exchange the two entries of
the combined view, and re-split. -/
def swap (q : Queue T) (index1 index2 : Int) : Bool × Queue T :=
  if index1 < 0 ∨ (q.size : Int) ≤ index1 ∨ index2 < 0 ∨ (q.size : Int) ≤ index2 then
    (false, q)
  else
    let combined := q.priorityTracks ++ q.tracks
    match combined.get? index1.toNat, combined.get? index2.toNat with
    | some a, some b =>
      let c2 := (combined.set index1.toNat b).set index2.toNat a
      (true, { q with priorityTracks := c2.take q.priorityTracks.length,
                      tracks := c2.drop q.priorityTracks.length })
    | _, _ => (false, q)

/-- `add(tracks)` with default options: append to the tail of the main lane. -/
def add (q : Queue T) (ts : List T) : Queue T :=
  { q with tracks := q.tracks ++ ts }

/-- `getAutoplayTracks()`: return `[]` without calling the provider when no
provider is set or `current` is null, else call the provider on `current`.
The first component records whether the provider was actually invoked; a
throwing provider is embedded as `Except.error`. -/
def getAutoplayTracks (provider : Option (T → Except String (List T)))
    (q : Queue T) : Bool × Except String (List T) :=
  match provider, q.current with
  | none, _ => (false, Except.ok [])
  | some _, none => (false, Except.ok [])
  | some f, some c => (true, f c)

end Queue

/-- The fields of the `Node` class used by `NodeManager.getBest`:
`priority` (lower preferred), `penalty` (derived load score, embedded as an
abstract rational since only its ordering matters here), `regions`, and
`state`; `connected` is the getter `state === NodeState.CONNECTED`. -/
structure LNode where
  name : String
  priority : Int
  penalty : ℚ
  regions : List String
  state : NodeState
deriving DecidableEq

/-- `get connected()` on `Node`: `state === NodeState.CONNECTED`. -/
def LNode.connected (n : LNode) : Bool :=
  decide (n.state = NodeState.connected)

/-- `NodeManager.getConnected()`: the connected members of the pool. -/
def getConnected (pool : List LNode) : List LNode :=
  pool.filter (fun n => n.connected)

/-- The boolean order induced by the comparator in `getBest`:
`(a, b) => a.priority - b.priority` when priorities differ, else
`a.penalty - b.penalty`; `nodeLE a b` says the comparator puts `a` at or
before `b`. -/
def nodeLE (a b : LNode) : Bool :=
  decide (a.priority < b.priority ∨ (a.priority = b.priority ∧ a.penalty ≤ b.penalty))

/-- The candidate set of `NodeManager.getBest(region)`: the connected nodes,
narrowed to those declaring no region restriction or listing the region when
that subset is non-empty. -/
def nodeCandidates (pool : List LNode) (region : Option String) : List LNode :=
  let connected := getConnected pool
  match region with
  | some r =>
    let regionNodes := connected.filter (fun n => n.regions.isEmpty || n.regions.contains r)
    if regionNodes.isEmpty then connected else regionNodes
  | none => connected

/-- `NodeManager.getBest(region)`: null when nothing is connected, else the
head of the candidate set sorted by the comparator. -/
def getBest (pool : List LNode) (region : Option String) : Option LNode :=
  if (getConnected pool).isEmpty then none
  else ((nodeCandidates pool region).mergeSort nodeLE).head?

/-- The reconnection-relevant state of the `Node` class (`part_004`):
`state`, `_reconnectAttempts`, the `retryAmount`/`retryDelay` options, and
the pending reconnect timer (carrying the total delay it was armed with). -/
structure NodeConn where
  state : NodeState
  reconnectAttempts : Nat
  retryAmount : Nat
  retryDelay : ℚ
  timer : Option ℚ
deriving DecidableEq

/-- The backoff delay of `_scheduleReconnect`:
`retryDelay * 1.5^(attempts - 1)` where `attempts` is the counter after the
increment. -/
def reconnectDelay (retryDelay : ℚ) (attempt : Nat) : ℚ :=
  retryDelay * (3 / 2) ^ (attempt - 1)

/-- `_scheduleReconnect()`: set state to reconnecting, increment the attempt
counter, and arm the timer with the backoff delay plus the random jitter
(passed in as a parameter, `Math.random() * 1000`). -/
def NodeConn.scheduleReconnect (n : NodeConn) (jitter : ℚ) : NodeConn :=
  let attempts := n.reconnectAttempts + 1
  { n with state := NodeState.reconnecting,
           reconnectAttempts := attempts,
           timer := some (reconnectDelay n.retryDelay attempts + jitter) }

/-- `_onClose(code, reason)` (state effect): schedule a reconnect when the
node is not destroyed and attempts remain, else do nothing. -/
def NodeConn.onClose (n : NodeConn) (jitter : ℚ) : NodeConn :=
  if n.state ≠ NodeState.destroyed ∧ n.reconnectAttempts < n.retryAmount then
    n.scheduleReconnect jitter
  else n

/-- The reconnect timer firing: `connect()` begins and sets state to
connecting (the socket outcome arrives later as a separate event). -/
def NodeConn.timerFire (n : NodeConn) : NodeConn :=
  match n.timer with
  | some _ => { n with timer := none, state := NodeState.connecting }
  | none => n

/-- Events driving the reconnection machine: an unexpected socket close
(with its sampled jitter) and the reconnect timer firing. -/
inductive NodeEvent
  | close (jitter : ℚ)
  | fire
deriving DecidableEq

/-- One event step of the reconnection machine. -/
def NodeConn.step (n : NodeConn) : NodeEvent → NodeConn
  | NodeEvent.close j => n.onClose j
  | NodeEvent.fire => n.timerFire

/-- A sequence of reconnection events applied in order. -/
def NodeConn.run (n : NodeConn) (es : List NodeEvent) : NodeConn :=
  es.foldl NodeConn.step n

/-- The state of the `Connection` class (`part_003`) relevant to readiness:
the three credentials, the channel id, the `connected` flag, whether the
one-shot `_pendingConnection` waiter is outstanding, and a count of how
often it has been resolved. -/
structure ConnState where
  channelId : Option String
  sessionId : Option String
  token : Option String
  endpoint : Option String
  connected : Bool
  pending : Bool
  resolves : Nat
deriving DecidableEq

/-- `_checkReady()`: when session id, token, and endpoint are all present,
set `connected`, resolve the pending waiter (at most once — it is nulled),
and emit ready; otherwise do nothing. -/
def ConnState.checkReady (s : ConnState) : ConnState :=
  if s.sessionId.isSome ∧ s.token.isSome ∧ s.endpoint.isSome then
    { s with connected := true,
             resolves := if s.pending then s.resolves + 1 else s.resolves,
             pending := false }
  else s

/-- The payload of a VOICE_STATE_UPDATE as seen by the connection. -/
structure VoiceStateUpd where
  sessionId : Option String
  channelId : Option String
deriving DecidableEq

/-- The payload of a VOICE_SERVER_UPDATE as seen by the connection. -/
structure VoiceServerUpd where
  token : Option String
  endpoint : Option String
deriving DecidableEq

/-- `handleVoiceStateUpdate(state)`: detect a voice disconnect (no channel
while one was set) and mark not connected; otherwise store the session and
channel ids and re-run the readiness check. -/
def ConnState.handleVoiceStateUpdate (s : ConnState) (u : VoiceStateUpd) : ConnState :=
  if u.channelId = none ∧ s.channelId ≠ none then
    { s with channelId := none, connected := false }
  else
    ConnState.checkReady { s with sessionId := u.sessionId, channelId := u.channelId }

/-- `handleVoiceServerUpdate(server)`: store token and endpoint and re-run
the readiness check (region extraction is omitted; no claim depends on it). -/
def ConnState.handleVoiceServerUpdate (s : ConnState) (v : VoiceServerUpd) : ConnState :=
  ConnState.checkReady { s with token := v.token, endpoint := v.endpoint }

/-- `disconnect()`: clear channel, session, token, and endpoint and mark not
connected (the timeout/voice-update side effects carry no claim state). -/
def ConnState.disconnect (s : ConnState) : ConnState :=
  { s with channelId := none, sessionId := none, token := none,
           endpoint := none, connected := false }

/-- Events the connection reacts to after `connect()` armed the waiter. -/
inductive ConnEvent
  | voiceState (u : VoiceStateUpd)
  | voiceServer (v : VoiceServerUpd)
  | disc
deriving DecidableEq

/-- One event step of the connection. -/
def ConnState.step (s : ConnState) : ConnEvent → ConnState
  | ConnEvent.voiceState u => s.handleVoiceStateUpdate u
  | ConnEvent.voiceServer v => s.handleVoiceServerUpdate v
  | ConnEvent.disc => s.disconnect

/-- A sequence of connection events applied in order. -/
def ConnState.run (s : ConnState) (es : List ConnEvent) : ConnState :=
  es.foldl ConnState.step s

/-- The outcome of `Player.play()` when called with no explicit track
(`part_005`, lines 284–327 and 536–553). -/
structure PlayNextResult (T : Type) where
  queue : Queue T
  startedTrack : Option T
  emittedQueueEnd : Bool
  providerInvoked : Bool
  addedTracks : List T
  finalState : Option PlayerState
  timerReason : Option String

/-- `Player.play()` with no track argument: pull from `queue.next()`; when a
track comes back, send it and enter the playing state; when the queue is
exhausted, emit the queue-end notification and run `_handleQueueEnd()` —
which consults `getAutoplayTracks()` (provider failures caught), adds any
returned tracks and replays, else falls through to the stopped state with
the empty-queue inactivity timeout. -/
def playAutoAdvance (provider : Option (T → Except String (List T)))
    (q : Queue T) : PlayNextResult T :=
  let r := q.next
  match r.1 with
  | some t =>
    { queue := r.2, startedTrack := some t, emittedQueueEnd := false,
      providerInvoked := false, addedTracks := [],
      finalState := some PlayerState.playing, timerReason := none }
  | none =>
    let q1 := r.2
    if q1.autoplay && provider.isSome then
      let auto := Queue.getAutoplayTracks provider q1
      match auto.2 with
      | Except.ok tracks =>
        if tracks.length > 0 then
          let q2 := q1.add tracks
          let r2 := q2.next
          { queue := r2.2, startedTrack := r2.1, emittedQueueEnd := true,
            providerInvoked := auto.1, addedTracks := tracks,
            finalState := some PlayerState.playing, timerReason := none }
        else
          { queue := q1, startedTrack := none, emittedQueueEnd := true,
            providerInvoked := auto.1, addedTracks := [],
            finalState := some PlayerState.stopped, timerReason := some "empty" }
      | Except.error _ =>
        { queue := q1, startedTrack := none, emittedQueueEnd := true,
          providerInvoked := auto.1, addedTracks := [],
          finalState := some PlayerState.stopped, timerReason := some "empty" }
    else
      { queue := q1, startedTrack := none, emittedQueueEnd := true,
        providerInvoked := false, addedTracks := [],
        finalState := some PlayerState.stopped, timerReason := some "empty" }

/-- The position-tracking fields of `Player` used by `estimatedPosition` and
`migrateNode`. -/
structure PlayerPos (T : Type) where
  playing : Bool
  paused : Bool
  position : Int
  positionTimestamp : Int
  connected : Bool
  current : Option T
deriving DecidableEq

/-- `get estimatedPosition()`: the raw last-known position unless playing
and unpaused, in which case add the elapsed time since the last sample
(`Date.now()` is passed in as `now`). -/
def estimatedPosition (now : Int) (p : PlayerPos T) : Int :=
  if ¬p.playing ∨ p.paused then p.position
  else p.position + (now - p.positionTimestamp)

/-- The commands `migrateNode` issues, in order: the best-effort delete on
the old node (recording whether it succeeded), the voice-credential resend
to the new node, and the replay on the new node. -/
inductive MigrateCmd (T : Type)
  | destroyOldPlayer (ok : Bool)
  | voiceUpdate
  | play (t : T) (startTime : Int)
deriving DecidableEq

/-- `Player.migrateNode(newNode)`: try to delete the player on the old node
(errors ignored), rebind, re-send voice credentials when still connected,
and re-issue `play()` for the current track with `startTime` equal to the
estimated position when actively playing. -/
def migrateNode (now : Int) (oldNodeDown : Bool) (p : PlayerPos T) :
    List (MigrateCmd T) :=
  let cmds := [MigrateCmd.destroyOldPlayer (!oldNodeDown)]
  let cmds := if p.connected then cmds ++ [MigrateCmd.voiceUpdate] else cmds
  match p.current with
  | some t =>
    if p.playing then cmds ++ [MigrateCmd.play t (estimatedPosition now p)] else cmds
  | none => cmds

/-- The pause/resume-relevant flags of `Player`. -/
structure PlayerFlags where
  playing : Bool
  paused : Bool
  state : PlayerState
deriving DecidableEq

/-- `Player.pause()`: return immediately when not playing; otherwise issue
one paused-flag update to the node (recorded as the list of sent flags) and
set the local paused flag and state. -/
def Player.pause (p : PlayerFlags) : PlayerFlags × List Bool :=
  if ¬p.playing then (p, [])
  else ({ p with paused := true, state := PlayerState.paused }, [true])

/-- `Player.resume()`: return immediately when not paused; otherwise issue
one paused-flag update to the node and clear the local paused flag. -/
def Player.resume (p : PlayerFlags) : PlayerFlags × List Bool :=
  if ¬p.paused then (p, [])
  else ({ p with paused := false, state := PlayerState.playing }, [false])

/-! Concrete states used by the scenario conjuncts, counterexamples, and
witnesses. -/

/-- The scenario node A: connected, priority 1, penalty 50. -/
def nodeA : LNode :=
  { name := "A", priority := 1, penalty := 50, regions := [], state := NodeState.connected }

/-- The scenario node B: connected, priority 1, penalty 10. -/
def nodeB : LNode :=
  { name := "B", priority := 1, penalty := 10, regions := [], state := NodeState.connected }

/-- A queue under track-loop with current track `0` and empty history. -/
def qTrackLoop : Queue ℕ :=
  { tracks := [], priorityTracks := [], current := some 0, previous := none,
    loop := LoopMode.track, autoplay := false, history := [], maxHistorySize := 50 }

/-- A queue under queue-loop holding the single main-lane track `7` with no
current track. -/
def qQueueLoop : Queue ℕ :=
  { tracks := [7], priorityTracks := [], current := none, previous := none,
    loop := LoopMode.queue, autoplay := false, history := [], maxHistorySize := 50 }

/-- A queue under queue-loop holding the single main-lane track `7` with the
same track current (the rotating steady state). -/
def qQueueLoopT : Queue ℕ :=
  { tracks := [7], priorityTracks := [], current := some 7, previous := none,
    loop := LoopMode.queue, autoplay := false, history := [], maxHistorySize := 50 }

/-- A queue with current track `0` and main lane `[1, 2]`. -/
def qJump : Queue ℕ :=
  { tracks := [1, 2], priorityTracks := [], current := some 0, previous := none,
    loop := LoopMode.off, autoplay := false, history := [], maxHistorySize := 50 }

/-- A queue with one priority and one main track, for the range guards. -/
def qOob : Queue ℕ :=
  { tracks := [1], priorityTracks := [2], current := none, previous := none,
    loop := LoopMode.off, autoplay := false, history := [], maxHistorySize := 50 }

/-- A ready connection: all three credentials present, connected, waiter
already resolved once. -/
def connReady : ConnState :=
  { channelId := some "c", sessionId := some "s", token := some "t",
    endpoint := some "e", connected := true, pending := false, resolves := 1 }

/-- A connection that has its channel, token, and endpoint but still awaits
the session id, with the one-shot waiter outstanding. -/
def connPartial : ConnState :=
  { channelId := some "c", sessionId := none, token := some "t",
    endpoint := some "e", connected := false, pending := true, resolves := 0 }

/-- A node in its first connection attempt with a single allowed retry. -/
def nodeRetry : NodeConn :=
  { state := NodeState.connecting, reconnectAttempts := 0, retryAmount := 1,
    retryDelay := 5000, timer := none }

/-- A queue whose current track `5` has just finished with the queue empty,
autoplay enabled. -/
def qAutoplayBug : Queue ℕ :=
  { tracks := [], priorityTracks := [], current := some 5, previous := none,
    loop := LoopMode.off, autoplay := true, history := [], maxHistorySize := 50 }

/-- A recommendation provider that would return track `9`. -/
def autoProv : Option (ℕ → Except String (List ℕ)) :=
  some (fun _ => Except.ok [9])

/-- A player playing track `3` at position 30000 with the last sample taken
at timestamp 100, still voice-connected. -/
def pMigrate : PlayerPos ℕ :=
  { playing := true, paused := false, position := 30000, positionTimestamp := 100,
    connected := true, current := some 3 }

/-- A player that is playing and already paused. -/
def pPausedAlready : PlayerFlags :=
  { playing := true, paused := true, state := PlayerState.paused }

/-- A player that is playing and not paused. -/
def pPlayingUnpaused : PlayerFlags :=
  { playing := true, paused := false, state := PlayerState.playing }

end Fuelink

namespace Fuelink

/-- C10: for every index outside the valid concatenated range,
`remove` returns null, `move` and `swap` return false, and in every such
case both lanes (indeed the whole queue state) are left unchanged. -/
theorem queue_oob_noop (T : Type) (q : Queue T) :
    (∀ i : Int, (i < 0 ∨ (q.size : Int) ≤ i) → q.remove i = (none, q)) ∧
    (∀ f t : Int, (f < 0 ∨ (q.size : Int) ≤ f ∨ t < 0 ∨ (q.size : Int) ≤ t) →
      q.move f t = (false, q)) ∧
    (∀ i j : Int, (i < 0 ∨ (q.size : Int) ≤ i ∨ j < 0 ∨ (q.size : Int) ≤ j) →
      q.swap i j = (false, q)) := by
  refine ⟨?_, ?_, ?_⟩
  · intro i hi
    rcases hi with hi | hi
    · simp only [Queue.remove, if_pos hi]
    · have h0 : ¬ i < 0 := by
        have : (0 : Int) ≤ (q.size : Int) := Int.ofNat_nonneg _
        omega
      have h1 : ¬ i.toNat < q.priorityTracks.length := by
        simp only [Queue.size] at hi
        omega
      have h2 : ¬ i.toNat - q.priorityTracks.length < q.tracks.length := by
        simp only [Queue.size] at hi
        omega
      simp only [Queue.remove, if_neg h0, if_neg h1, if_neg h2]
  · intro f t h
    simp only [Queue.move, if_pos h]
  · intro i j h
    simp only [Queue.swap, if_pos h]

/-- C10 witness: the guards fire on a concrete two-track queue at the
out-of-range indices 5, -1, and 99. -/
theorem queue_oob_noop_witness :
    qOob.remove 5 = (none, qOob) ∧ qOob.move (-1) 0 = (false, qOob) ∧
      qOob.swap 0 99 = (false, qOob) :=
  ⟨(queue_oob_noop ℕ qOob).1 5 (Or.inr (by decide)),
   (queue_oob_noop ℕ qOob).2.1 (-1) 0 (Or.inl (by decide)),
   (queue_oob_noop ℕ qOob).2.2 0 99 (Or.inr (Or.inr (Or.inr (by decide))))⟩

/-- C9 counterexample: a player that is playing and already paused is not a
no-op for `pause()` — a second paused-flag update is issued to the node
(the claim asserts no update is issued when already paused). -/
theorem pause_already_paused_not_noop :
    pPausedAlready.paused = true ∧ (Player.pause pPausedAlready).2 ≠ [] := by
  constructor
  · rfl
  · decide

/-- C9 amended: `pause()` is a no-op exactly when the player is not playing
(so a playing-and-already-paused player gets a second update), and
`resume()` is a no-op exactly when the player is not paused; in the
non-no-op cases exactly one paused-flag update is issued and the local
paused flag is flipped. -/
theorem pause_resume_amended (p : PlayerFlags) :
    (p.playing = false → Player.pause p = (p, [])) ∧
    (p.playing = true →
      (Player.pause p).2 = [true] ∧ (Player.pause p).1.paused = true ∧
        (Player.pause p).1.state = PlayerState.paused) ∧
    (p.paused = false → Player.resume p = (p, [])) ∧
    (p.paused = true →
      (Player.resume p).2 = [false] ∧ (Player.resume p).1.paused = false ∧
        (Player.resume p).1.state = PlayerState.playing) := by
  refine ⟨?_, ?_, ?_, ?_⟩
  · intro h
    simp [Player.pause, h]
  · intro h
    simp [Player.pause, h]
  · intro h
    simp [Player.resume, h]
  · intro h
    simp [Player.resume, h]

/-- C9 witness: the amended statement evaluated on a playing, unpaused
player. -/
theorem pause_resume_amended_witness :
    (Player.pause pPlayingUnpaused).2 = [true] ∧
      (Player.pause pPlayingUnpaused).1.paused = true ∧
      (Player.pause pPlayingUnpaused).1.state = PlayerState.paused :=
  (pause_resume_amended pPlayingUnpaused).2.1 rfl

/-- Under track-loop with a current track, `next()` saves the current track
to history and `previous` and returns it with the lanes untouched. -/
theorem next_track_loop_step {T : Type} (q : Queue T) (t : T)
    (hl : q.loop = LoopMode.track) (hc : q.current = some t) :
    (q.next).1 = some t ∧ (q.next).2.tracks = q.tracks ∧
      (q.next).2.priorityTracks = q.priorityTracks ∧
      (q.next).2.current = some t ∧ (q.next).2.loop = LoopMode.track ∧
      (q.next).2.maxHistorySize = q.maxHistorySize ∧
      (q.next).2.history.length =
        (if q.maxHistorySize < q.history.length + 1 then q.history.length
         else q.history.length + 1) := by
  refine ⟨?_, ?_, ?_, ?_, ?_, ?_, ?_⟩ <;>
    simp [Queue.next, Queue.addToHistory, hl, hc]
  split <;> simp [List.length_tail]

/-- C3 counterexample: under track-loop with a current track and empty
history, one `next()` call grows the history (the claim asserts no history
push ever occurs under track-loop). -/
theorem next_track_loop_grows_history :
    qTrackLoop.loop = LoopMode.track ∧ qTrackLoop.current = some 0 ∧
      qTrackLoop.history = [] ∧ (qTrackLoop.next).2.history ≠ [] := by
  decide

/-- C3 amended: under track-loop with a current track, `next()` called `N`
times returns the same track `N` times and leaves both lanes and the current
track unchanged — but each call pushes the current track into history, which
grows by one per call until the `maxHistorySize` cap. -/
theorem next_track_loop_amended (T : Type) (q : Queue T) (t : T) (N : Nat)
    (hl : q.loop = LoopMode.track) (hc : q.current = some t)
    (hh : q.history.length ≤ q.maxHistorySize) :
    (q.nextIter N).1 = List.replicate N (some t) ∧
    (q.nextIter N).2.tracks = q.tracks ∧
    (q.nextIter N).2.priorityTracks = q.priorityTracks ∧
    (q.nextIter N).2.current = some t ∧
    (q.nextIter N).2.history.length = min (q.history.length + N) q.maxHistorySize := by
  induction N generalizing q with
  | zero =>
    refine ⟨rfl, rfl, rfl, hc, ?_⟩
    simp only [Queue.nextIter]
    omega
  | succ n ih =>
    obtain ⟨s1, s2, s3, s4, s5, s6, s7⟩ := next_track_loop_step q t hl hc
    have hh' : (q.next).2.history.length ≤ (q.next).2.maxHistorySize := by
      rw [s7, s6]
      split <;> omega
    obtain ⟨i1, i2, i3, i4, i5⟩ := ih (q.next).2 s5 s4 hh'
    refine ⟨?_, ?_, ?_, ?_, ?_⟩
    · simp only [Queue.nextIter, List.replicate_succ, i1, s1]
    · simp only [Queue.nextIter, i1]
      rw [i2, s2]
    · simp only [Queue.nextIter]
      rw [i3, s3]
    · simpa only [Queue.nextIter] using i4
    · simp only [Queue.nextIter]
      rw [i5, s7, s6]
      split <;> omega

/-- C3 amended witness: two track-loop iterations on the concrete queue. -/
theorem next_track_loop_amended_witness :
    (qTrackLoop.nextIter 2).1 = List.replicate 2 (some 0) ∧
    (qTrackLoop.nextIter 2).2.tracks = qTrackLoop.tracks ∧
    (qTrackLoop.nextIter 2).2.priorityTracks = qTrackLoop.priorityTracks ∧
    (qTrackLoop.nextIter 2).2.current = some 0 ∧
    (qTrackLoop.nextIter 2).2.history.length =
      min (qTrackLoop.history.length + 2) qTrackLoop.maxHistorySize :=
  next_track_loop_amended ℕ qTrackLoop 0 2 rfl rfl (by decide)

/-- Under queue-loop with an empty priority lane, main lane `[t]`, and
current track `t`, one `next()` call returns `t` and restores the same lane
and current-track configuration (the just-finished `previous` is
re-appended as `t` is dequeued). -/
theorem next_queue_loop_single_step {T : Type} (q : Queue T) (t : T)
    (hl : q.loop = LoopMode.queue) (hp : q.priorityTracks = [])
    (ht : q.tracks = [t]) (hc : q.current = some t) :
    (q.next).1 = some t ∧ (q.next).2.tracks = [t] ∧
      (q.next).2.priorityTracks = [] ∧ (q.next).2.current = some t ∧
      (q.next).2.loop = LoopMode.queue := by
  simp [Queue.next, Queue.addToHistory, hl, hp, ht, hc]

/-- C4 counterexample: under queue-loop with a single main-lane track and no
current track, `next()` returns the track but leaves the main lane empty
(nothing is re-appended, because `previous` is still null at the dequeue),
so the lane length does not return to 1. -/
theorem next_queue_loop_single_counterexample :
    qQueueLoop.loop = LoopMode.queue ∧ qQueueLoop.priorityTracks = [] ∧
      qQueueLoop.tracks = [7] ∧ (qQueueLoop.next).1 = some 7 ∧
      (qQueueLoop.next).2.tracks.length ≠ 1 := by
  decide

/-- C4 amended: under queue-loop with an empty priority lane and a single
main-lane track `t`, when `t` is also the current track (as holds from the
first rotation onward), every one of `N` `next()` calls returns `t` and the
main lane is back to length 1 (holding exactly `t`) after each call; without
a current track the first dequeue re-appends nothing and the lane stays
empty. -/
theorem next_queue_loop_single_amended (T : Type) (q : Queue T) (t : T) (N : Nat)
    (hl : q.loop = LoopMode.queue) (hp : q.priorityTracks = [])
    (ht : q.tracks = [t]) (hc : q.current = some t) :
    (q.nextIter N).1 = List.replicate N (some t) ∧
    (q.nextIter N).2.tracks = [t] ∧
    (q.nextIter N).2.priorityTracks = [] ∧
    (q.nextIter N).2.current = some t := by
  induction N generalizing q with
  | zero => exact ⟨rfl, ht, hp, hc⟩
  | succ n ih =>
    obtain ⟨s1, s2, s3, s4, s5⟩ := next_queue_loop_single_step q t hl hp ht hc
    obtain ⟨i1, i2, i3, i4⟩ := ih (q.next).2 s5 s3 s2 s4
    refine ⟨?_, ?_, ?_, ?_⟩
    · simp only [Queue.nextIter, List.replicate_succ, i1, s1]
    · simpa only [Queue.nextIter] using i2
    · simpa only [Queue.nextIter] using i3
    · simpa only [Queue.nextIter] using i4

/-- C4 amended witness: three rotations of the concrete steady state. -/
theorem next_queue_loop_single_amended_witness :
    (qQueueLoopT.nextIter 3).1 = List.replicate 3 (some 7) ∧
    (qQueueLoopT.nextIter 3).2.tracks = [7] ∧
    (qQueueLoopT.nextIter 3).2.priorityTracks = [] ∧
    (qQueueLoopT.nextIter 3).2.current = some 7 :=
  next_queue_loop_single_amended ℕ qQueueLoopT 7 3 rfl rfl rfl rfl

/-- `_addToHistory` leaves the just-pushed track at the top of the history
(the cap evicts from the front only). -/
theorem addToHistory_getLast {T : Type} (q : Queue T) (t : T)
    (hm : 1 ≤ q.maxHistorySize) :
    (q.addToHistory t).history.getLast? = some t := by
  simp only [Queue.addToHistory]
  split
  · cases hq : q.history with
    | nil =>
      rename_i h1
      rw [hq] at h1
      simp at h1
      omega
    | cons a as => simp [hq, List.getLast?_concat]
  · exact List.getLast?_concat _

/-- Folding `_addToHistory` over a list leaves `maxHistorySize` unchanged. -/
theorem pushAll_max {T : Type} (l : List T) (q : Queue T) :
    (l.foldl Queue.addToHistory q).maxHistorySize = q.maxHistorySize := by
  induction l generalizing q with
  | nil => rfl
  | cons a as ih => exact ih (q.addToHistory a)

/-- Folding `_addToHistory` over a non-empty list leaves that list's last
element at the top of the history. -/
theorem pushAll_getLast {T : Type} (l : List T) (q : Queue T)
    (hm : 1 ≤ q.maxHistorySize) (hl : l ≠ []) :
    ((l.foldl Queue.addToHistory q).history).getLast? = l.getLast? := by
  induction l generalizing q with
  | nil => cases hl rfl
  | cons a as ih =>
    cases as with
    | nil => simpa using addToHistory_getLast q a hm
    | cons b bs =>
      have := ih (q.addToHistory a) hm (by simp)
      simpa [List.getLast?_cons_cons] using this

/-- C5 counterexample: on a queue with current track `0` and main lane
`[1, 2]`, `jump(1)` followed by `back()` makes track `1` (the skipped one)
current, not the pre-jump current track `0`. -/
theorem jump_back_counterexample :
    qJump.current = some 0 ∧ qJump.size = 2 ∧
      ((((qJump.jump 1).2).back).2).current = some 1 ∧
      ((((qJump.jump 1).2).back).2).current ≠ qJump.current := by
  decide

/-- C5 amended: with a current track and a valid position `p`, `jump(p)`
followed by `back()` restores the pre-jump current track exactly when
`p = 0`; for `p ≥ 1` it instead makes the last skipped track (the one at
position `p - 1`) current, because `jump` pushes the skipped tracks onto the
history after the pre-jump current. -/
theorem jump_back_amended (T : Type) (q : Queue T) (c : T) (p : Nat)
    (hc : q.current = some c) (hp : p < q.size) (hm : 1 ≤ q.maxHistorySize) :
    ((((q.jump (p : Int)).2).back).2).current =
      (if p = 0 then some c else (q.priorityTracks ++ q.tracks)[p - 1]?) := by
  have hguard : ¬(((p : Nat) : Int) < 0 ∨ (q.size : Int) ≤ ((p : Nat) : Int)) := by
    push_neg
    constructor <;> omega
  have hlen : (q.priorityTracks ++ q.tracks).length = q.size := by
    simp [Queue.size]
    omega
  have hhist : ((q.jump (p : Int)).2).history =
      (((q.priorityTracks ++ q.tracks).take p).foldl Queue.addToHistory
        (q.addToHistory c)).history := by
    simp only [Queue.jump]
    rw [if_neg hguard]
    simp [hc, Queue.addToHistory]
  have hlast : ((q.jump (p : Int)).2).history.getLast? =
      (if p = 0 then some c else (q.priorityTracks ++ q.tracks)[p - 1]?) := by
    rw [hhist]
    by_cases hp0 : p = 0
    · subst hp0
      simpa using addToHistory_getLast q c hm
    · have hne : (q.priorityTracks ++ q.tracks).take p ≠ [] := by
        rw [Ne, List.take_eq_nil_iff]
        push_neg
        constructor
        · exact hp0
        · intro hnil
          rw [hnil] at hlen
          simp at hlen
          omega
      rw [pushAll_getLast _ (q.addToHistory c) hm hne, if_neg hp0]
      rw [List.getLast?_eq_getElem?]
      have hlt : ((q.priorityTracks ++ q.tracks).take p).length = p := by
        rw [List.length_take]
        omega
      rw [hlt]
      exact List.getElem?_take_of_lt (by omega)
  obtain ⟨v, hv, hv2⟩ : ∃ v, ((q.jump (p : Int)).2).history.getLast? = some v ∧
      (if p = 0 then some c else (q.priorityTracks ++ q.tracks)[p - 1]?) = some v := by
    by_cases hp0 : p = 0
    · exact ⟨c, by rw [hlast, if_pos hp0], by rw [if_pos hp0]⟩
    · have hplt : p - 1 < (q.priorityTracks ++ q.tracks).length := by omega
      refine ⟨(q.priorityTracks ++ q.tracks)[p - 1], ?_, ?_⟩
      · rw [hlast, if_neg hp0]
        exact List.getElem?_eq_getElem hplt
      · rw [if_neg hp0]
        exact List.getElem?_eq_getElem hplt
  rw [hv2]
  simp [Queue.back, hv]

/-- C5 amended witness: `jump(0)` then `back()` on the concrete queue does
restore the pre-jump current track. -/
theorem jump_back_amended_witness :
    ((((qJump.jump ((0 : Nat) : Int)).2).back).2).current =
      (if (0 : Nat) = 0 then some 0 else (qJump.priorityTracks ++ qJump.tracks)[0 - 1]?) :=
  jump_back_amended ℕ qJump 0 0 rfl (by decide) (by decide)

/-- `_checkReady` marks a previously unready connection connected only when
session id, token, and endpoint are simultaneously present afterwards. -/
theorem checkReady_connected_new (s : ConnState)
    (h1 : (s.checkReady).connected = true) (h2 : s.connected = false) :
    (s.checkReady).sessionId.isSome ∧ (s.checkReady).token.isSome ∧
      (s.checkReady).endpoint.isSome := by
  unfold ConnState.checkReady at h1 ⊢
  split at h1
  · rename_i hcond
    rw [if_pos hcond]
    exact hcond
  · rw [h1] at h2
    cases h2

/-- `_checkReady` never increases the "potential" (resolve count plus an
outstanding-waiter credit): a resolve consumes the waiter. -/
theorem checkReady_potential (s : ConnState) :
    (s.checkReady).resolves + (if (s.checkReady).pending then 1 else 0) ≤
      s.resolves + (if s.pending then 1 else 0) := by
  unfold ConnState.checkReady
  split
  · by_cases hp : s.pending <;> simp [hp]
  · exact le_refl _

/-- No connection event increases the resolve potential. -/
theorem connStep_potential (s : ConnState) (e : ConnEvent) :
    (s.step e).resolves + (if (s.step e).pending then 1 else 0) ≤
      s.resolves + (if s.pending then 1 else 0) := by
  cases e with
  | voiceState u =>
    simp only [ConnState.step, ConnState.handleVoiceStateUpdate]
    split
    · exact le_refl _
    · exact checkReady_potential _
  | voiceServer v =>
    exact checkReady_potential _
  | disc =>
    exact le_refl _

/-- C6 counterexample: on a ready connection, a voice-state update for the
same channel that carries no session id clears `sessionId` while `connected`
stays true — the claim asserts `connected` turns false as soon as any of the
three credentials is cleared. -/
theorem connection_clear_session_keeps_connected :
    connReady.connected = true ∧
      (connReady.handleVoiceStateUpdate ⟨none, some "c"⟩).sessionId = none ∧
      (connReady.handleVoiceStateUpdate ⟨none, some "c"⟩).connected = true := by
  decide

/-- C6 amended: a voice-state or voice-server update that turns `connected`
from false to true does so only with session id, token, and endpoint all
present simultaneously; `disconnect()` clears all three and resets
`connected`; and across any sequence of further events the one-shot waiter
is resolved at most once more (an ordinary update can clear the session id
without resetting `connected`, as the counterexample shows). -/
theorem connection_ready_amended :
    (∀ (s : ConnState) (u : VoiceStateUpd),
        (s.handleVoiceStateUpdate u).connected = true → s.connected = false →
          (s.handleVoiceStateUpdate u).sessionId.isSome ∧
            (s.handleVoiceStateUpdate u).token.isSome ∧
            (s.handleVoiceStateUpdate u).endpoint.isSome) ∧
    (∀ (s : ConnState) (v : VoiceServerUpd),
        (s.handleVoiceServerUpdate v).connected = true → s.connected = false →
          (s.handleVoiceServerUpdate v).sessionId.isSome ∧
            (s.handleVoiceServerUpdate v).token.isSome ∧
            (s.handleVoiceServerUpdate v).endpoint.isSome) ∧
    (∀ s : ConnState, (s.disconnect).sessionId = none ∧ (s.disconnect).token = none ∧
        (s.disconnect).endpoint = none ∧ (s.disconnect).connected = false) ∧
    (∀ (s : ConnState) (es : List ConnEvent),
        (s.run es).resolves ≤ s.resolves + (if s.pending then 1 else 0)) := by
  refine ⟨?_, ?_, ?_, ?_⟩
  · intro s u h1 h2
    by_cases hg : u.channelId = none ∧ s.channelId ≠ none
    · simp only [ConnState.handleVoiceStateUpdate, if_pos hg] at h1
      cases h1
    · simp only [ConnState.handleVoiceStateUpdate, if_neg hg] at h1 ⊢
      exact checkReady_connected_new _ h1 h2
  · intro s v h1 h2
    exact checkReady_connected_new _ h1 h2
  · intro s
    exact ⟨rfl, rfl, rfl, rfl⟩
  · intro s es
    induction es generalizing s with
    | nil => simp [ConnState.run]
    | cons e es ih =>
      calc (s.run (e :: es)).resolves = ((s.step e).run es).resolves := rfl
        _ ≤ (s.step e).resolves + (if (s.step e).pending then 1 else 0) := ih _
        _ ≤ s.resolves + (if s.pending then 1 else 0) := connStep_potential s e

/-- C6 witness: the transition to ready on a concrete connection awaiting
only its session id has all three credentials present. -/
theorem connection_ready_amended_witness :
    (connPartial.handleVoiceStateUpdate ⟨some "s", some "c"⟩).sessionId.isSome ∧
      (connPartial.handleVoiceStateUpdate ⟨some "s", some "c"⟩).token.isSome ∧
      (connPartial.handleVoiceStateUpdate ⟨some "s", some "c"⟩).endpoint.isSome :=
  connection_ready_amended.1 connPartial ⟨some "s", some "c"⟩ (by decide) rfl

/-- A close or timer event never pushes the attempt counter past
`retryAmount` (and never changes `retryAmount`). -/
theorem nodeStep_attempts (n : NodeConn) (e : NodeEvent)
    (h : n.reconnectAttempts ≤ n.retryAmount) :
    (n.step e).reconnectAttempts ≤ (n.step e).retryAmount ∧
      (n.step e).retryAmount = n.retryAmount := by
  cases e with
  | close j =>
    simp only [NodeConn.step, NodeConn.onClose]
    split
    · rename_i hcond
      exact ⟨hcond.2, rfl⟩
    · exact ⟨h, rfl⟩
  | fire =>
    simp only [NodeConn.step, NodeConn.timerFire]
    cases n.timer with
    | some d => exact ⟨h, rfl⟩
    | none => exact ⟨h, rfl⟩

/-- C7 counterexample: with `retryAmount = 1`, after the single reconnect
attempt fails (close, timer fires into a new connect, close again), no
further reconnect is scheduled — but the node's state is `connecting`, not
`disconnected` as the claim asserts. -/
theorem reconnect_exhausted_not_disconnected :
    (nodeRetry.run [NodeEvent.close 0, NodeEvent.fire, NodeEvent.close 0]).reconnectAttempts =
        nodeRetry.retryAmount ∧
      (nodeRetry.run [NodeEvent.close 0, NodeEvent.fire, NodeEvent.close 0]).timer = none ∧
      (nodeRetry.run [NodeEvent.close 0, NodeEvent.fire, NodeEvent.close 0]).state =
        NodeState.connecting ∧
      NodeState.connecting ≠ NodeState.disconnected := by
  refine ⟨?_, ?_, ?_, by decide⟩ <;>
    simp [NodeConn.run, NodeConn.step, NodeConn.onClose, NodeConn.scheduleReconnect,
      NodeConn.timerFire, nodeRetry]

/-- C7 amended: an unexpected close with attempts remaining schedules a
reconnect after `retryDelay * 1.5^(attempt-1)` plus the sampled jitter
(which the source draws from `[0, 1000)`), incrementing the attempt counter;
the counter never exceeds `retryAmount`; and a close with the counter at
`retryAmount` changes nothing — in particular the state stays whatever it
was (connecting or reconnecting), and only an explicit `disconnect()` makes
it `disconnected`. -/
theorem reconnect_policy_amended :
    (∀ (n : NodeConn) (j : ℚ), n.state ≠ NodeState.destroyed →
        n.reconnectAttempts < n.retryAmount → 0 ≤ j → j < 1000 →
        (n.onClose j).reconnectAttempts = n.reconnectAttempts + 1 ∧
          (n.onClose j).state = NodeState.reconnecting ∧
          (n.onClose j).timer =
            some (n.retryDelay * (3 / 2) ^ n.reconnectAttempts + j) ∧
          (∀ d, (n.onClose j).timer = some d →
            n.retryDelay * (3 / 2) ^ n.reconnectAttempts ≤ d ∧
              d < n.retryDelay * (3 / 2) ^ n.reconnectAttempts + 1000)) ∧
    (∀ (n : NodeConn) (j : ℚ), n.retryAmount ≤ n.reconnectAttempts →
        n.onClose j = n) ∧
    (∀ (n : NodeConn) (es : List NodeEvent), n.reconnectAttempts ≤ n.retryAmount →
        (n.run es).reconnectAttempts ≤ n.retryAmount) := by
  refine ⟨?_, ?_, ?_⟩
  · intro n j h1 h2 hj0 hj1
    have hcond : n.state ≠ NodeState.destroyed ∧ n.reconnectAttempts < n.retryAmount :=
      ⟨h1, h2⟩
    have hdelay : reconnectDelay n.retryDelay (n.reconnectAttempts + 1) =
        n.retryDelay * (3 / 2) ^ n.reconnectAttempts := by
      simp [reconnectDelay]
    refine ⟨?_, ?_, ?_, ?_⟩
    · simp [NodeConn.onClose, if_pos hcond, NodeConn.scheduleReconnect]
    · simp [NodeConn.onClose, if_pos hcond, NodeConn.scheduleReconnect]
    · simp only [NodeConn.onClose, if_pos hcond, NodeConn.scheduleReconnect]
      rw [hdelay]
    · intro d hd
      simp only [NodeConn.onClose, if_pos hcond, NodeConn.scheduleReconnect] at hd
      rw [hdelay] at hd
      obtain rfl : n.retryDelay * (3 / 2) ^ n.reconnectAttempts + j = d :=
        Option.some.inj hd
      constructor <;> linarith
  · intro n j h
    simp only [NodeConn.onClose]
    rw [if_neg]
    intro hcond
    exact absurd hcond.2 (not_lt.2 h)
  · intro n es h
    induction es generalizing n with
    | nil => exact h
    | cons e es ih =>
      obtain ⟨h1, h2⟩ := nodeStep_attempts n e h
      have := ih (n.step e) (h2 ▸ h1)
      rw [show (n.run (e :: es)) = ((n.step e).run es) from rfl] at *
      rwa [h2] at this

/-- C7 witness: the backoff conjunct applied to the concrete node with
jitter 500. -/
theorem reconnect_policy_amended_witness :
    (nodeRetry.onClose 500).reconnectAttempts = nodeRetry.reconnectAttempts + 1 ∧
      (nodeRetry.onClose 500).state = NodeState.reconnecting ∧
      (nodeRetry.onClose 500).timer =
        some (nodeRetry.retryDelay * (3 / 2) ^ nodeRetry.reconnectAttempts + 500) ∧
      (∀ d, (nodeRetry.onClose 500).timer = some d →
        nodeRetry.retryDelay * (3 / 2) ^ nodeRetry.reconnectAttempts ≤ d ∧
          d < nodeRetry.retryDelay * (3 / 2) ^ nodeRetry.reconnectAttempts + 1000) :=
  reconnect_policy_amended.1 nodeRetry 500 (by decide) (by decide) (by norm_num)
    (by norm_num)

/-- C2: with autoplay enabled, a provider set (which would return track 9),
and the queue exhausted, `play()` emits the queue-end notification — but the
provider is never invoked: `queue.next()` nulled `current` before
`_handleQueueEnd()` ran, so `getAutoplayTracks()` short-circuits to `[]` and
the player falls through to the stopped state with the empty-queue timeout.
The spec's autoplay path (provider called with the just-finished track,
returned tracks added, playback resumed) is unreachable from this code
path. -/
theorem autoplay_dead_at_queue_end :
    qAutoplayBug.autoplay = true ∧ autoProv.isSome = true ∧
      qAutoplayBug.current = some 5 ∧ qAutoplayBug.size = 0 ∧
      (playAutoAdvance autoProv qAutoplayBug).emittedQueueEnd = true ∧
      (playAutoAdvance autoProv qAutoplayBug).providerInvoked = false ∧
      (playAutoAdvance autoProv qAutoplayBug).addedTracks = [] ∧
      (playAutoAdvance autoProv qAutoplayBug).finalState = some PlayerState.stopped ∧
      (playAutoAdvance autoProv qAutoplayBug).timerReason = some "empty" := by
  refine ⟨rfl, rfl, rfl, rfl, ?_, ?_, ?_, ?_, ?_⟩ <;> rfl

/-- C8: `migrateNode` on a player that is playing a track always ends with a
replay command for that track whose start time is the estimated position
(raw position when paused, position plus elapsed time otherwise); the
old-node delete is attempted first and its failure changes nothing else;
and when still voice-connected the voice credentials are re-sent before the
replay. -/
theorem migrateNode_spec (T : Type) (p : PlayerPos T) (now : Int) (t : T)
    (hc : p.current = some t) (hp : p.playing = true) :
    (∀ b₁ b₂ : Bool, (migrateNode now b₁ p).tail = (migrateNode now b₂ p).tail) ∧
    (∀ b : Bool, (migrateNode now b p).head? =
        some (MigrateCmd.destroyOldPlayer (!b))) ∧
    (∀ b : Bool, (migrateNode now b p).getLast? =
        some (MigrateCmd.play t
          (if p.paused then p.position else p.position + (now - p.positionTimestamp)))) ∧
    (∀ b : Bool, p.connected = true →
        MigrateCmd.voiceUpdate ∈ (migrateNode now b p).dropLast) ∧
    estimatedPosition now p =
      (if p.playing = true ∧ p.paused = false then p.position + (now - p.positionTimestamp)
       else p.position) := by
  have hest : estimatedPosition now p =
      (if p.paused then p.position else p.position + (now - p.positionTimestamp)) := by
    by_cases h2 : p.paused <;> simp [estimatedPosition, hp, h2]
  refine ⟨?_, ?_, ?_, ?_, ?_⟩
  · intro b₁ b₂
    by_cases hconn : p.connected <;> simp [migrateNode, hc, hp, hconn]
  · intro b
    by_cases hconn : p.connected <;> simp [migrateNode, hc, hp, hconn]
  · intro b
    by_cases hconn : p.connected <;> simp [migrateNode, hc, hp, hconn, hest]
  · intro b hconn
    simp [migrateNode, hc, hp, hconn]
  · rw [hest]
    by_cases h2 : p.paused <;> simp [hp, h2]

/-- C8 witness: the migration commands for the concrete playing player at
position 30000 migrated at time 5100. -/
theorem migrateNode_spec_witness :
    (∀ b₁ b₂ : Bool, (migrateNode 5100 b₁ pMigrate).tail = (migrateNode 5100 b₂ pMigrate).tail) ∧
    (∀ b : Bool, (migrateNode 5100 b pMigrate).head? =
        some (MigrateCmd.destroyOldPlayer (!b))) ∧
    (∀ b : Bool, (migrateNode 5100 b pMigrate).getLast? =
        some (MigrateCmd.play 3
          (if pMigrate.paused then pMigrate.position
           else pMigrate.position + (5100 - pMigrate.positionTimestamp)))) ∧
    (∀ b : Bool, pMigrate.connected = true →
        MigrateCmd.voiceUpdate ∈ (migrateNode 5100 b pMigrate).dropLast) ∧
    estimatedPosition 5100 pMigrate =
      (if pMigrate.playing = true ∧ pMigrate.paused = false then
        pMigrate.position + (5100 - pMigrate.positionTimestamp)
       else pMigrate.position) :=
  migrateNode_spec ℕ pMigrate 5100 3 rfl rfl

/-- The comparator order of `getBest` is transitive. -/
theorem nodeLE_trans (a b c : LNode) (h1 : nodeLE a b) (h2 : nodeLE b c) :
    nodeLE a c := by
  simp only [nodeLE, decide_eq_true_eq] at h1 h2 ⊢
  rcases h1 with h1 | ⟨e1, p1⟩ <;> rcases h2 with h2 | ⟨e2, p2⟩
  · exact Or.inl (lt_trans h1 h2)
  · exact Or.inl (e2 ▸ h1)
  · exact Or.inl (e1 ▸ h2)
  · exact Or.inr ⟨e1.trans e2, le_trans p1 p2⟩

/-- The comparator order of `getBest` is total. -/
theorem nodeLE_total (a b : LNode) : nodeLE a b || nodeLE b a := by
  simp only [nodeLE, Bool.or_eq_true, decide_eq_true_eq]
  rcases lt_trichotomy a.priority b.priority with h | h | h
  · exact Or.inl (Or.inl h)
  · rcases le_total a.penalty b.penalty with hp | hp
    · exact Or.inl (Or.inr ⟨h, hp⟩)
    · exact Or.inr (Or.inr ⟨h.symm, hp⟩)
  · exact Or.inr (Or.inl h)

/-- The comparator order of `getBest` is reflexive. -/
theorem nodeLE_refl (a : LNode) : nodeLE a a = true := by
  simp [nodeLE]

/-- The head of the comparator-sorted list is a member of the original list
and is minimal under the comparator order. -/
theorem mergeSort_head_min (l : List LNode) (r : LNode)
    (h : (l.mergeSort nodeLE).head? = some r) :
    r ∈ l ∧ ∀ n ∈ l, nodeLE r n = true := by
  obtain ⟨rest, hrest⟩ : ∃ rest, l.mergeSort nodeLE = r :: rest := by
    cases hm : l.mergeSort nodeLE with
    | nil => rw [hm] at h; cases h
    | cons x xs =>
      rw [hm] at h
      obtain rfl : x = r := by simpa using h
      exact ⟨xs, rfl⟩
  constructor
  · have hmem : r ∈ l.mergeSort nodeLE := by
      rw [hrest]
      exact List.mem_cons_self _ _
    exact List.mem_mergeSort.1 hmem
  · intro n hn
    have hn' : n ∈ l.mergeSort nodeLE := List.mem_mergeSort.2 hn
    rw [hrest] at hn'
    rcases List.mem_cons.1 hn' with rfl | hn''
    · exact nodeLE_refl n
    · have hsorted : (l.mergeSort nodeLE).Pairwise (fun a b => nodeLE a b = true) :=
        List.sorted_mergeSort (fun a b c => nodeLE_trans a b c) nodeLE_total l
      rw [hrest] at hsorted
      exact (List.pairwise_cons.1 hsorted).1 n hn''

/-- Every member of the candidate set is a connected node of the pool. -/
theorem nodeCandidates_subset_connected (pool : List LNode) (region : Option String) :
    ∀ r ∈ nodeCandidates pool region, r ∈ getConnected pool := by
  intro r hr
  cases region with
  | none => exact hr
  | some reg =>
    simp only [nodeCandidates] at hr
    split at hr
    · exact hr
    · exact List.mem_of_mem_filter hr

/-- The candidate set is empty only when no node is connected. -/
theorem nodeCandidates_ne_nil (pool : List LNode) (region : Option String)
    (h : getConnected pool ≠ []) : nodeCandidates pool region ≠ [] := by
  cases region with
  | none => exact h
  | some reg =>
    simp only [nodeCandidates]
    split
    · exact h
    · rename_i hfil
      intro hcon
      rw [hcon] at hfil
      simp at hfil

/-- With a region given and at least one connected node compatible with it,
the candidate set is exactly the region-compatible connected nodes. -/
theorem nodeCandidates_region_hit (pool : List LNode) (reg : String)
    (h : ∃ n ∈ getConnected pool, n.regions = [] ∨ reg ∈ n.regions) :
    nodeCandidates pool (some reg) =
      (getConnected pool).filter (fun n => n.regions.isEmpty || n.regions.contains reg) := by
  obtain ⟨n, hn, hreg⟩ := h
  have hmem : n ∈ (getConnected pool).filter
      (fun n => n.regions.isEmpty || n.regions.contains reg) := by
    rw [List.mem_filter]
    refine ⟨hn, ?_⟩
    rcases hreg with hreg | hreg
    · simp [hreg]
    · have hcont : n.regions.contains reg = true := by simpa using hreg
      simp only [hcont, Bool.or_true]
  simp only [nodeCandidates]
  rw [if_neg]
  intro hempty
  rw [List.isEmpty_iff] at hempty
  rw [hempty] at hmem
  cases hmem

/-- With a region given but no connected node compatible with it, the
candidate set falls back to all connected nodes. -/
theorem nodeCandidates_region_miss (pool : List LNode) (reg : String)
    (h : ¬ ∃ n ∈ getConnected pool, n.regions = [] ∨ reg ∈ n.regions) :
    nodeCandidates pool (some reg) = getConnected pool := by
  simp only [nodeCandidates]
  rw [if_pos]
  rw [List.isEmpty_iff, List.filter_eq_nil_iff]
  intro x hx hpred
  refine h ⟨x, hx, ?_⟩
  simpa using hpred

/-- `getBest` returns null exactly when no node in the pool is connected. -/
theorem getBest_none_iff (pool : List LNode) (region : Option String) :
    getBest pool region = none ↔ getConnected pool = [] := by
  constructor
  · intro h
    by_contra hne
    have hc := nodeCandidates_ne_nil pool region hne
    simp only [getBest] at h
    rw [if_neg (by simpa using hne)] at h
    rcases hs : (nodeCandidates pool region).mergeSort nodeLE with _ | ⟨x, xs⟩
    · have hperm := List.mergeSort_perm (nodeCandidates pool region) nodeLE
      rw [hs] at hperm
      exact hc (List.Perm.nil_eq hperm).symm
    · rw [hs] at h
      cases h
  · intro h
    simp [getBest, h]

/-- Any node `getBest` returns is a connected candidate, minimal under the
comparator order over the candidate set. -/
theorem getBest_some_spec (pool : List LNode) (region : Option String) (r : LNode)
    (hr : getBest pool region = some r) :
    r ∈ nodeCandidates pool region ∧ r ∈ getConnected pool ∧ r.connected = true ∧
      ∀ n ∈ nodeCandidates pool region, nodeLE r n = true := by
  simp only [getBest] at hr
  by_cases he : (getConnected pool).isEmpty
  · rw [if_pos he] at hr
    cases hr
  · rw [if_neg he] at hr
    obtain ⟨hmem, hmin⟩ := mergeSort_head_min _ r hr
    have hconn : r ∈ getConnected pool := nodeCandidates_subset_connected pool region r hmem
    exact ⟨hmem, hconn, (List.mem_filter.1 hconn).2, hmin⟩

/-- C1: `getBest` returns null exactly when no node is connected; any node
it returns is connected and minimal under the (priority ascending, penalty
ascending) comparator over the candidate set; the candidate set narrows to
the region-compatible connected nodes exactly when a region is given and at
least one connected node declares no region restriction or lists it; and on
the concrete pool of connected nodes A (priority 1, penalty 50) and
B (priority 1, penalty 10) it returns B. -/
theorem getBest_spec (pool : List LNode) (region : Option String) :
    (getBest pool region = none ↔ getConnected pool = []) ∧
    (∀ r, getBest pool region = some r →
        r ∈ nodeCandidates pool region ∧ r ∈ getConnected pool ∧ r.connected = true ∧
          ∀ n ∈ nodeCandidates pool region, nodeLE r n = true) ∧
    (∀ reg, region = some reg →
        ((∃ n ∈ getConnected pool, n.regions = [] ∨ reg ∈ n.regions) →
          nodeCandidates pool region =
            (getConnected pool).filter
              (fun n => n.regions.isEmpty || n.regions.contains reg)) ∧
        ((¬ ∃ n ∈ getConnected pool, n.regions = [] ∨ reg ∈ n.regions) →
          nodeCandidates pool region = getConnected pool)) ∧
    (region = none → nodeCandidates pool region = getConnected pool) ∧
    getBest [nodeA, nodeB] none = some nodeB := by
  refine ⟨getBest_none_iff pool region, getBest_some_spec pool region, ?_, ?_, ?_⟩
  · rintro reg rfl
    exact ⟨nodeCandidates_region_hit pool reg, nodeCandidates_region_miss pool reg⟩
  · rintro rfl
    rfl
  · have hne : getConnected [nodeA, nodeB] ≠ [] := by decide
    cases hbest : getBest [nodeA, nodeB] none with
    | none => exact absurd ((getBest_none_iff [nodeA, nodeB] none).1 hbest) hne
    | some r =>
      obtain ⟨hmem, _, _, hmin⟩ := getBest_some_spec [nodeA, nodeB] none r hbest
      have hcand : nodeCandidates [nodeA, nodeB] none = [nodeA, nodeB] := by decide
      rw [hcand] at hmem hmin
      rcases List.mem_cons.1 hmem with rfl | hmem2
      · have hAB : nodeLE nodeA nodeB = true :=
          hmin nodeB (List.mem_cons.2 (Or.inr (List.mem_cons_self _ _)))
        have hfalse : nodeLE nodeA nodeB = false := by decide
        rw [hfalse] at hAB
        cases hAB
      · rcases List.mem_cons.1 hmem2 with rfl | hmem3
        · rfl
        · cases hmem3

/-- C1 witness: on the two-node pool, the minimality conjunct instantiated
at the returned node B. -/
theorem getBest_spec_witness :
    nodeB ∈ nodeCandidates [nodeA, nodeB] none ∧
      nodeB ∈ getConnected [nodeA, nodeB] ∧ nodeB.connected = true ∧
      ∀ n ∈ nodeCandidates [nodeA, nodeB] none, nodeLE nodeB n = true :=
  (getBest_spec [nodeA, nodeB] none).2.1 nodeB (getBest_spec [nodeA, nodeB] none).2.2.2.2

end Fuelink
